import Mathlib

/-!
Shallow embedding of the Micro-Frontend-Architecture-Toolkit runtime glue
code (shell container): the `MFERegistry` (src/core/MFERegistry.js), the
configuration service (src/services/configService.js), the dynamic remote
loader (src/utils/dynamicRemoteLoader.js), the shell setup
(src/core/setupApp.js) and the cross-MFE `EventBus`
(shared-components/src/utils/eventBus.js).

JavaScript `Map` objects are modelled as association lists in insertion
order: `Map.prototype.set` on an existing key updates the entry in place
(keeping its original position, as JS Maps do), and iteration
(`forEach`, `entries`) walks the list front to back.  JS `Set` objects are
modelled as lists with membership-guarded append.  JS strings are Lean
`String`s; JS truthiness of a string is `s ≠ ""`, and an optional field
(`undefined` vs. present) is an `Option`.  Mutation becomes explicit state
passing; promises and thrown errors become `Except`-style results.
-/

namespace MFEToolkit

/-- Lookup in a JS `Map` modelled as an association list (`Map.prototype.get`). -/
def assocGet {α : Type} : List (String × α) → String → Option α
  | [], _ => none
  | (k, v) :: rest, key => if k = key then some v else assocGet rest key

/-- `Map.prototype.set`: updates an existing key in place (keeping its
insertion position, as JS Maps do) or appends a new entry at the end. -/
def assocSet {α : Type} : List (String × α) → String → α → List (String × α)
  | [], key, v => [(key, v)]
  | (k, w) :: rest, key, v =>
    if k = key then (key, v) :: rest else (k, w) :: assocSet rest key v

/-- `Set.prototype.add`: appends the element unless already present. -/
def setAdd (s : List String) (x : String) : List String :=
  if s.contains x then s else s ++ [x]

/-- A route entry inside an MFE configuration (`MFERoute`). -/
structure MFERoute where
  path : String
  modulePath : String
deriving DecidableEq, Repr

/-- An exposed-component entry inside an MFE configuration. -/
structure ExposedComponent where
  name : String
  modulePath : String
deriving DecidableEq, Repr

/-- An MFE configuration record as fetched from `config.json` (`MFEConfig`).
Fields that may be absent in the JSON (`routes`, `exposedComponents`,
`enabled`, `preload`) are `Option`s; `none` models JS `undefined`. -/
structure MFEConfig where
  name : String
  remoteName : String
  url : String
  routes : Option (List MFERoute)
  exposedComponents : Option (List ExposedComponent)
  enabled : Option Bool
  preload : Option Bool
deriving DecidableEq, Repr

/-- The value stored per remote in `MFERegistry.registeredMFEs`. -/
structure RegisteredMFE where
  url : String
  routes : List MFERoute
  exposedComponents : List ExposedComponent
  loaded : Bool
deriving DecidableEq, Repr

/-- A record returned by `MFERegistry.getAllRoutes`: the route spread
(`...route`) extended with the owning remote name and its url. -/
structure RouteEntry where
  path : String
  modulePath : String
  remoteName : String
  url : String
deriving DecidableEq, Repr

/-- The state of the `MFERegistry` singleton: a Map `registeredMFEs` in
insertion order and a Set `loadedRemotes`. -/
structure MFERegistry where
  registeredMFEs : List (String × RegisteredMFE)
  loadedRemotes : List String
deriving DecidableEq, Repr

/-- The registry produced by the constructor: both collections empty. -/
def MFERegistry.init : MFERegistry :=
  { registeredMFEs := [], loadedRemotes := [] }

/-- `MFERegistry.register(mfeConfig)`: stores `{ url, routes: routes || [],
exposedComponents: exposedComponents || [], loaded: false }` under
`remoteName`. -/
def MFERegistry.register (st : MFERegistry) (c : MFEConfig) : MFERegistry :=
  { st with
    registeredMFEs := assocSet st.registeredMFEs c.remoteName
      { url := c.url
        routes := c.routes.getD []
        exposedComponents := c.exposedComponents.getD []
        loaded := false } }

/-- `MFERegistry.get(remoteName)`: the stored record, or null (`none`). -/
def MFERegistry.get (st : MFERegistry) (remoteName : String) :
    Option RegisteredMFE :=
  assocGet st.registeredMFEs remoteName

/-- `MFERegistry.getAll()`: every entry as `{ name, ...config }`. -/
def MFERegistry.getAll (st : MFERegistry) : List (String × RegisteredMFE) :=
  st.registeredMFEs

/-- `MFERegistry.markAsLoaded(remoteName)`: if registered, sets the record
field `loaded` to true and adds the name to `loadedRemotes`; otherwise
does nothing. -/
def MFERegistry.markAsLoaded (st : MFERegistry) (remoteName : String) :
    MFERegistry :=
  match assocGet st.registeredMFEs remoteName with
  | none => st
  | some mfe =>
    { registeredMFEs :=
        assocSet st.registeredMFEs remoteName { mfe with loaded := true }
      loadedRemotes := setAdd st.loadedRemotes remoteName }

/-- `MFERegistry.isLoaded(remoteName)`: membership in `loadedRemotes`. -/
def MFERegistry.isLoaded (st : MFERegistry) (remoteName : String) : Bool :=
  st.loadedRemotes.contains remoteName

/-- `MFERegistry.getAllRoutes()`: iterates `registeredMFEs` with `forEach`
and pushes `{ ...route, remoteName, url: config.url }` for each route. -/
def MFERegistry.getAllRoutes (st : MFERegistry) : List RouteEntry :=
  st.registeredMFEs.foldl
    (fun routes p =>
      p.2.routes.foldl
        (fun rs route =>
          rs ++ [{ path := route.path
                   modulePath := route.modulePath
                   remoteName := p.1
                   url := p.2.url }])
        routes)
    []

/-- The mutating registry operations a client can perform. -/
inductive RegOp where
  | register (c : MFEConfig)
  | markAsLoaded (remoteName : String)
deriving DecidableEq, Repr

/-- One registry operation applied to a state. -/
def applyOp (st : MFERegistry) : RegOp → MFERegistry
  | .register c => st.register c
  | .markAsLoaded r => st.markAsLoaded r

/-- A sequence of registry operations applied front to back. -/
def applyOps (st : MFERegistry) (ops : List RegOp) : MFERegistry :=
  ops.foldl applyOp st

/- ### Basic association-list lemmas -/

theorem assocGet_assocSet_self {α : Type} (m : List (String × α)) (k : String)
    (v : α) : assocGet (assocSet m k v) k = some v := by
  induction m with
  | nil => simp [assocGet, assocSet]
  | cons hd tl ih =>
    obtain ⟨k0, v0⟩ := hd
    by_cases h : k0 = k
    · simp [assocSet, assocGet, h]
    · simp [assocSet, assocGet, h, ih]

theorem assocGet_assocSet_ne {α : Type} (m : List (String × α))
    (k key : String) (v : α) (h : key ≠ k) :
    assocGet (assocSet m k v) key = assocGet m key := by
  have hk : k ≠ key := Ne.symm h
  induction m with
  | nil => simp [assocGet, assocSet, hk]
  | cons hd tl ih =>
    obtain ⟨k0, v0⟩ := hd
    by_cases h0 : k0 = k
    · subst h0
      simp [assocSet, assocGet, hk]
    · by_cases h1 : k0 = key
      · simp [assocSet, assocGet, h0, h1, h]
      · simp [assocSet, assocGet, h0, h1, ih]

theorem setAdd_contains_self (s : List String) (x : String) :
    (setAdd s x).contains x = true := by
  by_cases hc : x ∈ s
  · simp [setAdd, hc]
  · simp [setAdd, hc]

theorem setAdd_contains_of_contains (s : List String) (x y : String)
    (h : s.contains y = true) : (setAdd s x).contains y = true := by
  simp at h
  by_cases hc : x ∈ s
  · simp [setAdd, hc, h]
  · simp [setAdd, hc, h]

theorem setAdd_contains_ne (s : List String) (x y : String) (h : y ≠ x) :
    (setAdd s x).contains y = s.contains y := by
  by_cases hc : x ∈ s
  · simp [setAdd, hc]
  · simp [setAdd, hc, h]

/- ### C1: getAllRoutes is the ordered flatten of per-MFE route lists -/

theorem foldl_push_eq_map {α β : Type} (f : α → β) :
    ∀ (l : List α) (acc : List β),
      l.foldl (fun rs r => rs ++ [f r]) acc = acc ++ l.map f := by
  intro l
  induction l with
  | nil => intro acc; simp
  | cons hd tl ih => intro acc; simp [List.foldl, ih]

theorem getAllRoutes_foldl_eq_flatMap :
    ∀ (l : List (String × RegisteredMFE)) (acc : List RouteEntry),
      l.foldl
        (fun routes p =>
          p.2.routes.foldl
            (fun rs route =>
              rs ++ [{ path := route.path
                       modulePath := route.modulePath
                       remoteName := p.1
                       url := p.2.url }])
            routes)
        acc
      = acc ++ l.flatMap (fun p =>
          p.2.routes.map (fun route =>
            { path := route.path
              modulePath := route.modulePath
              remoteName := p.1
              url := p.2.url })) := by
  intro l
  induction l with
  | nil => intro acc; simp
  | cons hd tl ih =>
    intro acc
    simp only [List.foldl, List.flatMap_cons]
    rw [foldl_push_eq_map, ih, List.append_assoc]

/-- C1: for every registry state, `getAllRoutes` returns the concatenation,
over all registered MFEs in registration (insertion) order, of each MFE's
route list in order, each record keeping the route's `path` and
`modulePath` and gaining that MFE's `remoteName` and `url`; hence its
length is the sum of the registered MFEs' route-list lengths. -/
theorem getAllRoutes_is_flatten (st : MFERegistry) :
    st.getAllRoutes
      = st.registeredMFEs.flatMap (fun p =>
          p.2.routes.map (fun route =>
            { path := route.path
              modulePath := route.modulePath
              remoteName := p.1
              url := p.2.url }))
    ∧ st.getAllRoutes.length
      = (st.registeredMFEs.map (fun p => p.2.routes.length)).sum := by
  have h := getAllRoutes_foldl_eq_flatMap st.registeredMFEs []
  constructor
  · unfold MFERegistry.getAllRoutes
    rw [h]
    simp
  · unfold MFERegistry.getAllRoutes
    rw [h]
    simp [List.length_flatMap, Function.comp_def]

/- ### C2 / C10: loaded bookkeeping across operation sequences -/

/-- A concrete configuration (the `Payments` entry of the example
`public/config.json`). -/
def cfgPayments : MFEConfig :=
  { name := "Payments"
    remoteName := "payments_mfe"
    url := "http://localhost:3001"
    routes := some [{ path := "/payments", modulePath := "./PaymentsApp" }]
    exposedComponents :=
      some [{ name := "PaymentWidget", modulePath := "./PaymentWidget" }]
    enabled := some true
    preload := none }

theorem markAsLoaded_eq_none (st : MFERegistry) (x : String)
    (hm : assocGet st.registeredMFEs x = none) : st.markAsLoaded x = st := by
  unfold MFERegistry.markAsLoaded
  rw [hm]

theorem markAsLoaded_eq_some (st : MFERegistry) (x : String)
    (mfe : RegisteredMFE) (hm : assocGet st.registeredMFEs x = some mfe) :
    st.markAsLoaded x =
      { registeredMFEs :=
          assocSet st.registeredMFEs x { mfe with loaded := true }
        loadedRemotes := setAdd st.loadedRemotes x } := by
  unfold MFERegistry.markAsLoaded
  rw [hm]

theorem register_consistent_step (st : MFERegistry) (c : MFEConfig)
    (h : ∀ r d, st.get r = some d → d.loaded = true → st.isLoaded r = true) :
    ∀ r d, (st.register c).get r = some d → d.loaded = true →
      (st.register c).isLoaded r = true := by
  intro r d hget hl
  unfold MFERegistry.register MFERegistry.get MFERegistry.isLoaded at *
  by_cases hr : r = c.remoteName
  · subst hr
    rw [assocGet_assocSet_self] at hget
    injection hget with hd
    rw [← hd] at hl
    simp at hl
  · rw [assocGet_assocSet_ne _ _ _ _ hr] at hget
    exact h r d hget hl

theorem markAsLoaded_consistent_step (st : MFERegistry) (x : String)
    (h : ∀ r d, st.get r = some d → d.loaded = true → st.isLoaded r = true) :
    ∀ r d, (st.markAsLoaded x).get r = some d → d.loaded = true →
      (st.markAsLoaded x).isLoaded r = true := by
  intro r d hget hl
  cases hm : assocGet st.registeredMFEs x with
  | none =>
    rw [markAsLoaded_eq_none st x hm] at hget ⊢
    exact h r d hget hl
  | some mfe =>
    rw [markAsLoaded_eq_some st x mfe hm] at hget ⊢
    simp only [MFERegistry.isLoaded]
    by_cases hr : r = x
    · subst hr
      exact setAdd_contains_self st.loadedRemotes r
    · simp only [MFERegistry.get] at hget
      rw [assocGet_assocSet_ne _ _ _ _ hr] at hget
      exact setAdd_contains_of_contains _ _ _ (h r d hget hl)

theorem applyOps_consistent (ops : List RegOp) :
    ∀ st : MFERegistry,
      (∀ r d, st.get r = some d → d.loaded = true → st.isLoaded r = true) →
      ∀ r d, (applyOps st ops).get r = some d → d.loaded = true →
        (applyOps st ops).isLoaded r = true := by
  induction ops with
  | nil => intro st h; exact h
  | cons op rest ih =>
    intro st h
    have hstep : ∀ r d, (applyOp st op).get r = some d → d.loaded = true →
        (applyOp st op).isLoaded r = true := by
      cases op with
      | register c => exact register_consistent_step st c h
      | markAsLoaded x => exact markAsLoaded_consistent_step st x h
    exact ih (applyOp st op) hstep

/-- C2 as stated is false: after `register`, `markAsLoaded`, `register` on the
same remote, `isLoaded` returns true while the stored descriptor has
`loaded = false` (re-registration resets the flag but never removes the
name from `loadedRemotes`). -/
theorem register_breaks_loaded_consistency :
    ((applyOps MFERegistry.init
        [RegOp.register cfgPayments, RegOp.markAsLoaded "payments_mfe",
         RegOp.register cfgPayments]).isLoaded "payments_mfe" = true)
    ∧ (((applyOps MFERegistry.init
        [RegOp.register cfgPayments, RegOp.markAsLoaded "payments_mfe",
         RegOp.register cfgPayments]).get "payments_mfe").map
          RegisteredMFE.loaded = some false) := by
  decide

/-- C2 amended: in every state reachable from the empty registry by
`register` and `markAsLoaded` calls, if `get r` returns a descriptor whose
`loaded` field is true then `isLoaded r` returns true (the converse can
fail once a remote is re-registered after having been marked as loaded). -/
theorem get_loaded_implies_isLoaded (ops : List RegOp) (r : String)
    (d : RegisteredMFE)
    (hget : (applyOps MFERegistry.init ops).get r = some d)
    (hl : d.loaded = true) :
    (applyOps MFERegistry.init ops).isLoaded r = true := by
  refine applyOps_consistent ops MFERegistry.init ?_ r d hget hl
  intro r0 d0 hget0 hl0
  simp [MFERegistry.init, MFERegistry.get, assocGet] at hget0

/-- Witness for `get_loaded_implies_isLoaded` at a concrete two-step
operation sequence. -/
theorem get_loaded_implies_isLoaded_witness :
    (applyOps MFERegistry.init
      [RegOp.register cfgPayments,
       RegOp.markAsLoaded "payments_mfe"]).isLoaded "payments_mfe" = true :=
  get_loaded_implies_isLoaded
    [RegOp.register cfgPayments, RegOp.markAsLoaded "payments_mfe"]
    "payments_mfe"
    { url := "http://localhost:3001"
      routes := [{ path := "/payments", modulePath := "./PaymentsApp" }]
      exposedComponents :=
        [{ name := "PaymentWidget", modulePath := "./PaymentWidget" }]
      loaded := true }
    (by decide) (by decide)

/-- C10: loaded status is monotone: any sequence of registry operations
preserves `isLoaded r = true`; in particular re-registering `r` resets the
descriptor flag but never removes `r` from `loadedRemotes`. -/
theorem isLoaded_monotone (ops : List RegOp) (st : MFERegistry) (r : String)
    (h : st.isLoaded r = true) : (applyOps st ops).isLoaded r = true := by
  induction ops generalizing st with
  | nil => exact h
  | cons op rest ih =>
    refine ih (applyOp st op) ?_
    cases op with
    | register c => exact h
    | markAsLoaded x =>
      show (st.markAsLoaded x).isLoaded r = true
      cases hm : assocGet st.registeredMFEs x with
      | none => rw [markAsLoaded_eq_none st x hm]; exact h
      | some mfe =>
        rw [markAsLoaded_eq_some st x mfe hm]
        simp only [MFERegistry.isLoaded]
        exact setAdd_contains_of_contains _ _ _ h

/-- Witness for `isLoaded_monotone`: a loaded remote stays loaded across a
re-registration. -/
theorem isLoaded_monotone_witness :
    (applyOps
      (applyOps MFERegistry.init
        [RegOp.register cfgPayments, RegOp.markAsLoaded "payments_mfe"])
      [RegOp.register cfgPayments]).isLoaded "payments_mfe" = true :=
  isLoaded_monotone [RegOp.register cfgPayments]
    (applyOps MFERegistry.init
      [RegOp.register cfgPayments, RegOp.markAsLoaded "payments_mfe"])
    "payments_mfe" (by decide)

/- ### C6: markAsLoaded frame conditions -/

/-- C6: `markAsLoaded r` only sets `r`'s descriptor flag and `r`'s
loaded-set membership: on an unregistered `r` the whole state is unchanged,
on a registered `r` the descriptor keeps all fields but `loaded`, and for
every other remote name both `get` and `isLoaded` are unchanged. -/
theorem markAsLoaded_frame (st : MFERegistry) (r : String) :
    (st.get r = none → st.markAsLoaded r = st)
    ∧ (∀ d, st.get r = some d →
        (st.markAsLoaded r).get r = some { d with loaded := true }
        ∧ (st.markAsLoaded r).isLoaded r = true)
    ∧ (∀ s2, s2 ≠ r →
        (st.markAsLoaded r).get s2 = st.get s2
        ∧ (st.markAsLoaded r).isLoaded s2 = st.isLoaded s2) := by
  cases hm : assocGet st.registeredMFEs r with
  | none =>
    rw [markAsLoaded_eq_none st r hm]
    refine ⟨fun _ => rfl, ?_, fun s2 _ => ⟨rfl, rfl⟩⟩
    intro d hd
    unfold MFERegistry.get at hd
    rw [hm] at hd
    exact absurd hd (by simp)
  | some mfe =>
    rw [markAsLoaded_eq_some st r mfe hm]
    refine ⟨?_, ?_, ?_⟩
    · intro hd
      unfold MFERegistry.get at hd
      rw [hm] at hd
      exact absurd hd (by simp)
    · intro d hd
      unfold MFERegistry.get at hd
      rw [hm] at hd
      injection hd with hd
      subst hd
      constructor
      · simp only [MFERegistry.get]
        exact assocGet_assocSet_self _ _ _
      · simp only [MFERegistry.isLoaded]
        exact setAdd_contains_self _ _
    · intro s2 hs2
      constructor
      · simp only [MFERegistry.get]
        exact assocGet_assocSet_ne _ _ _ _ hs2
      · simp only [MFERegistry.isLoaded]
        exact setAdd_contains_ne _ _ _ hs2

/-- Witness for `markAsLoaded_frame` at a concrete registry holding two
remotes. -/
theorem markAsLoaded_frame_witness :
    ((applyOps MFERegistry.init
        [RegOp.register cfgPayments]).markAsLoaded "orders_mfe").get
        "payments_mfe"
      = (applyOps MFERegistry.init
          [RegOp.register cfgPayments]).get "payments_mfe" :=
  ((markAsLoaded_frame
      (applyOps MFERegistry.init [RegOp.register cfgPayments])
      "orders_mfe").2.2 "payments_mfe" (by decide)).1

/- ### Configuration service (src/services/configService.js) -/

/-- The observable outcome of `await fetch('/config.json')` followed by
`await response.json()`: the network request may reject, the body may fail
to parse (a JSON value such as `null`, on which reading `.microFrontends`
throws inside the same `try`, behaves identically), or parsing yields an
object whose `microFrontends` field is present or absent. -/
inductive FetchOutcome where
  | networkError
  | jsonError
  | jsonOk (microFrontends : Option (List MFEConfig))
deriving DecidableEq, Repr

/-- The `try` body of `fetchMFEConfig`: `await fetch(...)`, `await
response.json()`, then `return config.microFrontends || []`. -/
def fetchMFEConfigBody : FetchOutcome → Except String (List MFEConfig)
  | .networkError => .error "fetch rejected"
  | .jsonError => .error "response.json() rejected"
  | .jsonOk mfes => .ok (mfes.getD [])

/-- `fetchMFEConfig()`: the `try` body wrapped in the `catch` that logs and
returns `[]`. Its plain (non-`Except`) return type records that the
function never rejects. -/
def fetchMFEConfig (o : FetchOutcome) : List MFEConfig :=
  match fetchMFEConfigBody o with
  | .ok mfes => mfes
  | .error _ => []

/-- JS truthiness of a string-valued field: falsy exactly on `""`. -/
def truthyString (s : String) : Bool := s ≠ ""

/-- `validateMFEConfig(mfeConfig)`: `['name','remoteName','url','routes']
.every(field => !!mfeConfig[field])`. The string fields are truthy iff
nonempty; `routes` holds an array when present, and a JS array (even an
empty one) is always truthy, so its check is presence. -/
def validateMFEConfig (c : MFEConfig) : Bool :=
  truthyString c.name && truthyString c.remoteName && truthyString c.url
    && c.routes.isSome

/-- The record `MFERegistry.register` stores for a configuration. -/
def registeredOf (c : MFEConfig) : RegisteredMFE :=
  { url := c.url
    routes := c.routes.getD []
    exposedComponents := c.exposedComponents.getD []
    loaded := false }

/-- `setupApp()` acting on a registry state: filter the fetched
configurations by `validateMFEConfig` and `enabled !== false`, register
the survivors, then try to pre-load the `preload === true` ones, marking a
remote as loaded when its `loadRemoteModule` promise resolves (abstracted
by `loadOk`) and only logging when it rejects. -/
def setupApp (loadOk : String → Bool) (fetched : List MFEConfig)
    (st : MFERegistry) : MFERegistry :=
  let validConfigs := fetched.filter
    (fun c => validateMFEConfig c && !(c.enabled == some false))
  let st1 := validConfigs.foldl MFERegistry.register st
  let criticalMFEs := validConfigs.filter (fun c => c.preload == some true)
  criticalMFEs.foldl
    (fun s c =>
      if loadOk c.remoteName then s.markAsLoaded c.remoteName else s)
    st1

/- ### C8: fetchMFEConfig never rejects -/

/-- C8: `fetchMFEConfig` is total (never rejects): a failed fetch, an
unparsable body, or a configuration without a `microFrontends` field all
yield `[]`, and a parsed configuration with the field yields exactly that
array. -/
theorem fetchMFEConfig_total (o : FetchOutcome) :
    (o = .networkError → fetchMFEConfig o = [])
    ∧ (o = .jsonError → fetchMFEConfig o = [])
    ∧ (o = .jsonOk none → fetchMFEConfig o = [])
    ∧ (∀ mfes, o = .jsonOk (some mfes) → fetchMFEConfig o = mfes) := by
  refine ⟨?_, ?_, ?_, ?_⟩ <;> intro h
  · subst h; rfl
  · subst h; rfl
  · subst h; rfl
  · intro h2; subst h2; rfl

/-- Witness for `fetchMFEConfig_total` on a successful fetch. -/
theorem fetchMFEConfig_total_witness :
    fetchMFEConfig (.jsonOk (some [cfgPayments])) = [cfgPayments] :=
  (fetchMFEConfig_total (.jsonOk (some [cfgPayments]))).2.2.2 [cfgPayments]
    rfl

/- ### C5: setupApp registers exactly the valid enabled configurations -/

theorem register_get_isSome (st : MFERegistry) (c : MFEConfig) (r : String) :
    ((st.register c).get r).isSome
      = ((c.remoteName == r) || (st.get r).isSome) := by
  by_cases hr : r = c.remoteName
  · subst hr
    simp [MFERegistry.register, MFERegistry.get, assocGet_assocSet_self]
  · have hne : c.remoteName ≠ r := fun hh => hr hh.symm
    simp [MFERegistry.register, MFERegistry.get,
      assocGet_assocSet_ne _ _ _ _ hr, hne]

theorem foldl_register_get_isSome (cfgs : List MFEConfig) :
    ∀ (st : MFERegistry) (r : String),
      ((cfgs.foldl MFERegistry.register st).get r).isSome
        = ((st.get r).isSome || cfgs.any (fun c => c.remoteName == r)) := by
  induction cfgs with
  | nil => intro st r; simp
  | cons c rest ih =>
    intro st r
    simp only [List.foldl, List.any_cons]
    rw [ih, register_get_isSome]
    cases c.remoteName == r <;> simp

theorem markAsLoaded_get_isSome (st : MFERegistry) (x r : String) :
    ((st.markAsLoaded x).get r).isSome = (st.get r).isSome := by
  cases hm : assocGet st.registeredMFEs x with
  | none => rw [markAsLoaded_eq_none st x hm]
  | some mfe =>
    rw [markAsLoaded_eq_some st x mfe hm]
    by_cases hr : r = x
    · subst hr
      simp [MFERegistry.get, assocGet_assocSet_self, hm]
    · simp [MFERegistry.get, assocGet_assocSet_ne _ _ _ _ hr]

theorem preload_foldl_get_isSome (loadOk : String → Bool)
    (cfgs : List MFEConfig) :
    ∀ (st : MFERegistry) (r : String),
      ((cfgs.foldl
          (fun s c =>
            if loadOk c.remoteName then s.markAsLoaded c.remoteName else s)
          st).get r).isSome
        = ((st.get r).isSome) := by
  induction cfgs with
  | nil => intro st r; rfl
  | cons c rest ih =>
    intro st r
    simp only [List.foldl]
    rw [ih]
    by_cases hl : loadOk c.remoteName
    · simp [hl, markAsLoaded_get_isSome]
    · simp [hl]

theorem foldl_register_get_some (cfgs : List MFEConfig) :
    ∀ (st : MFERegistry) (r : String) (d : RegisteredMFE),
      (cfgs.foldl MFERegistry.register st).get r = some d →
      (∃ c ∈ cfgs, c.remoteName = r ∧ d = registeredOf c)
        ∨ st.get r = some d := by
  induction cfgs with
  | nil => intro st r d h; exact Or.inr h
  | cons c rest ih =>
    intro st r d h
    simp only [List.foldl] at h
    rcases ih (st.register c) r d h with hc | hst
    · obtain ⟨c2, hc2, hr2, hd2⟩ := hc
      exact Or.inl ⟨c2, List.mem_cons_of_mem c hc2, hr2, hd2⟩
    · by_cases hr : r = c.remoteName
      · subst hr
        unfold MFERegistry.register MFERegistry.get at hst
        rw [assocGet_assocSet_self] at hst
        injection hst with hst
        exact Or.inl ⟨c, List.mem_cons_self c rest, rfl, hst.symm⟩
      · unfold MFERegistry.register MFERegistry.get at hst
        rw [assocGet_assocSet_ne _ _ _ _ hr] at hst
        exact Or.inr hst

theorem markAsLoaded_get_fields (st : MFERegistry) (x r : String)
    (d : RegisteredMFE) (h : (st.markAsLoaded x).get r = some d) :
    ∃ d2, st.get r = some d2 ∧ d.url = d2.url ∧ d.routes = d2.routes
      ∧ d.exposedComponents = d2.exposedComponents := by
  cases hm : assocGet st.registeredMFEs x with
  | none =>
    rw [markAsLoaded_eq_none st x hm] at h
    exact ⟨d, h, rfl, rfl, rfl⟩
  | some mfe =>
    rw [markAsLoaded_eq_some st x mfe hm] at h
    by_cases hr : r = x
    · subst hr
      unfold MFERegistry.get at h
      rw [assocGet_assocSet_self] at h
      injection h with h
      subst h
      exact ⟨mfe, hm, rfl, rfl, rfl⟩
    · unfold MFERegistry.get at h
      rw [assocGet_assocSet_ne _ _ _ _ hr] at h
      exact ⟨d, h, rfl, rfl, rfl⟩

theorem preload_foldl_get_fields (loadOk : String → Bool)
    (cfgs : List MFEConfig) :
    ∀ (st : MFERegistry) (r : String) (d : RegisteredMFE),
      (cfgs.foldl
          (fun s c =>
            if loadOk c.remoteName then s.markAsLoaded c.remoteName else s)
          st).get r = some d →
      ∃ d2, st.get r = some d2 ∧ d.url = d2.url ∧ d.routes = d2.routes
        ∧ d.exposedComponents = d2.exposedComponents := by
  induction cfgs with
  | nil => intro st r d h; exact ⟨d, h, rfl, rfl, rfl⟩
  | cons c rest ih =>
    intro st r d h
    simp only [List.foldl] at h
    obtain ⟨d2, hd2, hu, hrt, he⟩ := ih _ r d h
    by_cases hl : loadOk c.remoteName
    · rw [if_pos hl] at hd2
      obtain ⟨d3, hd3, hu3, hrt3, he3⟩ := markAsLoaded_get_fields st _ r d2 hd2
      exact ⟨d3, hd3, hu.trans hu3, hrt.trans hrt3, he.trans he3⟩
    · rw [if_neg hl] at hd2
      exact ⟨d2, hd2, hu, hrt, he⟩

/-- C5: after `setupApp` on the empty registry, `get r` succeeds exactly
when some fetched configuration passes `validateMFEConfig`, has
`enabled !== false` and names remote `r`; every stored record carries the
`url`, `routes` and `exposedComponents` of such a configuration; and
`validateMFEConfig c` is true iff the four required fields of `c` are
truthy. -/
theorem setupApp_registers_exactly_valid (loadOk : String → Bool)
    (fetched : List MFEConfig) (r : String) :
    (((setupApp loadOk fetched MFERegistry.init).get r).isSome
      = fetched.any (fun c =>
          validateMFEConfig c && !(c.enabled == some false)
            && (c.remoteName == r)))
    ∧ (∀ d, (setupApp loadOk fetched MFERegistry.init).get r = some d →
        ∃ c ∈ fetched, validateMFEConfig c = true ∧ c.enabled ≠ some false
          ∧ c.remoteName = r ∧ d.url = c.url ∧ d.routes = c.routes.getD []
          ∧ d.exposedComponents = c.exposedComponents.getD [])
    ∧ (∀ c : MFEConfig, validateMFEConfig c = true ↔
        (c.name ≠ "" ∧ c.remoteName ≠ "" ∧ c.url ≠ "" ∧ c.routes.isSome)) := by
  refine ⟨?_, ?_, ?_⟩
  · unfold setupApp
    rw [preload_foldl_get_isSome, foldl_register_get_isSome]
    simp [MFERegistry.init, MFERegistry.get, assocGet, List.any_filter,
      Bool.and_assoc]
  · intro d h
    unfold setupApp at h
    obtain ⟨d2, hd2, hu, hrt, he⟩ := preload_foldl_get_fields _ _ _ r d h
    rcases foldl_register_get_some _ _ r d2 hd2 with hc | hst
    · obtain ⟨c, hcmem, hr2, hd3⟩ := hc
      rw [List.mem_filter] at hcmem
      obtain ⟨hcf, hcp⟩ := hcmem
      rw [Bool.and_eq_true] at hcp
      refine ⟨c, hcf, hcp.1, ?_, hr2, ?_, ?_, ?_⟩
      · intro hfalse
        rw [hfalse] at hcp
        simp at hcp
      · rw [hu, hd3]; rfl
      · rw [hrt, hd3]; rfl
      · rw [he, hd3]; rfl
    · simp [MFERegistry.init, MFERegistry.get, assocGet] at hst
  · intro c
    unfold validateMFEConfig truthyString
    simp [and_assoc]

/-- Witness for `setupApp_registers_exactly_valid` at a concrete
configuration list. -/
theorem setupApp_registers_exactly_valid_witness :
    ((setupApp (fun _ => true) [cfgPayments]
        MFERegistry.init).get "payments_mfe").isSome = true := by
  rw [(setupApp_registers_exactly_valid (fun _ => true) [cfgPayments]
    "payments_mfe").1]
  decide

/- ### Dynamic remote loader (src/utils/dynamicRemoteLoader.js) -/

/-- A federation container held by a global property (`window[remoteName]`):
`container.init(sharedScope)` flips `inited`, and `container.get(path)`
yields the module the corresponding factory produces (`none` models a
path the remote does not expose). -/
structure Container where
  inited : Bool
  modules : List (String × String)
deriving DecidableEq, Repr

/-- `container.get(modulePath)` followed by calling the factory. -/
def Container.get (c : Container) (p : String) : Option String :=
  assocGet c.modules p

/-- The browser state the loader touches: the global properties holding
containers, and the `src` attributes of the script elements appended to
`document.head`, in insertion order. -/
structure LoaderState where
  window : List (String × Container)
  scripts : List String
deriving DecidableEq, Repr

/-- What the injected remote-entry script does once its load or error event
fires: it may fail to load, or load and (normally) install a container on
`window[remoteName]`; `loaded none` models a script that loads without
defining the expected global. -/
inductive ScriptOutcome where
  | loadError
  | loaded (defines : Option Container)
deriving DecidableEq, Repr

/-- The settlement of the promise returned by `loadRemoteModule`. -/
inductive LoadResult where
  | resolved (c : Container)
  | rejected (msg : String)
deriving DecidableEq, Repr

/-- The `src` assigned to the injected script element. -/
def remoteEntrySrc (remoteUrl : String) : String :=
  if remoteUrl.endsWith "/remoteEntry.js" then remoteUrl
  else remoteUrl ++ "/remoteEntry.js"

/-- `loadRemoteModule(remoteName, remoteUrl)`: if `window[remoteName]`
already exists, resolve with it immediately (no script is created);
otherwise append one script element with `src = remoteEntrySrc remoteUrl`
and wait. On the error event, reject. On the load event, read
`window[remoteName]` (as left by the script, abstracted by `outcome`):
reject if it is still absent, otherwise call `container.init(sharedScope)`
and resolve the container. -/
def loadRemoteModule (st : LoaderState) (remoteName remoteUrl : String)
    (outcome : ScriptOutcome) : LoaderState × LoadResult :=
  match assocGet st.window remoteName with
  | some c => (st, .resolved c)
  | none =>
    let st1 : LoaderState :=
      { st with scripts := st.scripts ++ [remoteEntrySrc remoteUrl] }
    match outcome with
    | .loadError =>
      (st1, .rejected
        ("Failed to load remote: " ++ remoteName ++ " from " ++ remoteUrl))
    | .loaded defines =>
      let window1 := match defines with
        | none => st1.window
        | some c => assocSet st1.window remoteName c
      match assocGet window1 remoteName with
      | none =>
        ({ st1 with window := window1 },
          .rejected ("Remote " ++ remoteName ++ " not found"))
      | some c =>
        let c2 := { c with inited := true }
        ({ st1 with window := assocSet window1 remoteName c2 }, .resolved c2)

/-- `getRemoteModule(remoteName, modulePath)`: throws when the global is
absent, otherwise awaits `container.get(modulePath)` and calls the
factory; it writes nothing. -/
def getRemoteModule (st : LoaderState) (remoteName modulePath : String) :
    LoaderState × Except String (Option String) :=
  match assocGet st.window remoteName with
  | none => (st, .error ("Remote " ++ remoteName ++ " not initialized"))
  | some c => (st, .ok (c.get modulePath))

/- ### C3: loadRemoteModule is a cache in front of one script fetch -/

/-- C3: `loadRemoteModule` resolves an already-present global without
inserting any script; otherwise it inserts exactly one script whose `src`
is `remoteUrl` when it already ends with `/remoteEntry.js` and
`remoteUrl ++ "/remoteEntry.js"` otherwise, and on load it rejects when
the global is still absent and otherwise initializes and resolves the
container. -/
theorem loadRemoteModule_spec (st : LoaderState) (n u : String)
    (o : ScriptOutcome) :
    (∀ c, assocGet st.window n = some c →
        loadRemoteModule st n u o = (st, .resolved c))
    ∧ (assocGet st.window n = none →
        ((loadRemoteModule st n u o).1.scripts
            = st.scripts ++ [if u.endsWith "/remoteEntry.js" then u
                else u ++ "/remoteEntry.js"])
        ∧ (o = .loadError → (loadRemoteModule st n u o).2
            = .rejected ("Failed to load remote: " ++ n ++ " from " ++ u))
        ∧ (o = .loaded none → (loadRemoteModule st n u o).2
            = .rejected ("Remote " ++ n ++ " not found"))
        ∧ (∀ c, o = .loaded (some c) →
            (loadRemoteModule st n u o).2 = .resolved { c with inited := true }
            ∧ assocGet (loadRemoteModule st n u o).1.window n
                = some { c with inited := true })) := by
  cases hm : assocGet st.window n with
  | some c0 =>
    refine ⟨?_, ?_⟩
    · intro c hc
      injection hc with hc
      subst hc
      unfold loadRemoteModule
      rw [hm]
    · intro hnone
      exact absurd hnone (by simp)
  | none =>
    refine ⟨?_, ?_⟩
    · intro c hc
      exact absurd hc (by simp)
    · intro _
      refine ⟨?_, ?_, ?_, ?_⟩
      · unfold loadRemoteModule
        rw [hm]
        cases o with
        | loadError => rfl
        | loaded defines =>
          cases defines with
          | none => simp [hm, remoteEntrySrc]
          | some c =>
            simp only
            rw [assocGet_assocSet_self]
            simp [remoteEntrySrc]
      · intro ho
        subst ho
        unfold loadRemoteModule
        rw [hm]
      · intro ho
        subst ho
        unfold loadRemoteModule
        rw [hm]
        simp [hm]
      · intro c ho
        subst ho
        unfold loadRemoteModule
        rw [hm]
        simp only
        rw [assocGet_assocSet_self]
        exact ⟨rfl, by simp [assocGet_assocSet_self]⟩

/-- Witness for `loadRemoteModule_spec`: a cache miss whose script installs
the container resolves it initialized. -/
theorem loadRemoteModule_spec_witness :
    (loadRemoteModule { window := [], scripts := [] } "authMfe"
        "http://localhost:3001"
        (.loaded (some { inited := false, modules := [] }))).2
      = .resolved { inited := true, modules := [] } :=
  ((((loadRemoteModule_spec { window := [], scripts := [] } "authMfe"
      "http://localhost:3001"
      (.loaded (some { inited := false, modules := [] }))).2 rfl).2.2.2
    { inited := false, modules := [] }) rfl).1

/- ### C4: getRemoteModule throws exactly on a missing container -/

/-- C4: `getRemoteModule` leaves all state unchanged, throws exactly when
the global object has no property named `remoteName`, and otherwise
returns what the container's module factory produces for `modulePath`. -/
theorem getRemoteModule_spec (st : LoaderState) (n p : String) :
    ((getRemoteModule st n p).1 = st)
    ∧ ((∃ msg, (getRemoteModule st n p).2 = .error msg)
        ↔ assocGet st.window n = none)
    ∧ (∀ c, assocGet st.window n = some c →
        (getRemoteModule st n p).2 = .ok (c.get p)) := by
  cases hm : assocGet st.window n with
  | none =>
    unfold getRemoteModule
    rw [hm]
    refine ⟨rfl, ?_, ?_⟩
    · simp
    · intro c hc
      exact absurd hc (by simp)
  | some c0 =>
    unfold getRemoteModule
    rw [hm]
    refine ⟨rfl, ?_, ?_⟩
    · simp
    · intro c hc
      injection hc with hc
      subst hc
      rfl

/-- Witness for `getRemoteModule_spec`: reading an exposed module from a
present container. -/
theorem getRemoteModule_spec_witness :
    (getRemoteModule
        { window := [("authMfe",
            { inited := true, modules := [("./App", "AuthApp")] })]
          scripts := [] } "authMfe" "./App").2
      = .ok (some "AuthApp") :=
  (getRemoteModule_spec
      { window := [("authMfe",
          { inited := true, modules := [("./App", "AuthApp")] })]
        scripts := [] } "authMfe" "./App").2.2
    { inited := true, modules := [("./App", "AuthApp")] } rfl

/- ### Event bus (shared-components/src/utils/eventBus.js) -/

/-- Callback identity: two subscriptions of the same function value carry
the same id (JS compares callbacks with `indexOf`, i.e. by identity). -/
abbrev Callback := Nat

/-- Event payloads; the bus never inspects them. -/
abbrev EventData := Nat

/-- The `EventBus` state: the Map `events` from event name to the array of
subscribed callbacks. -/
structure EventBus where
  events : List (String × List Callback)
deriving DecidableEq, Repr

/-- The bus produced by the constructor. -/
def EventBus.empty : EventBus := { events := [] }

/-- The callback array currently stored for an event (`[]` when absent). -/
def EventBus.subscribers (bus : EventBus) (e : String) : List Callback :=
  (assocGet bus.events e).getD []

/-- `on(eventName, callback)`: `set(eventName, [])` when the entry is
missing, then `get(eventName).push(callback)`. It returns the unsubscribe
closure embedded below as `EventBus.unsubscribe`. -/
def EventBus.on (bus : EventBus) (e : String) (cb : Callback) : EventBus :=
  match assocGet bus.events e with
  | none => { events := assocSet bus.events e [cb] }
  | some cbs => { events := assocSet bus.events e (cbs ++ [cb]) }

/-- The unsubscribe closure returned by `on`, run against the current bus:
it reads the callback array, takes `indexOf(callback)` and, when the index
is `> -1`, splices that one position out — i.e. it removes the first
occurrence of `callback`, which is `List.erase` (a no-op when absent, as
in the guarded JS). The `none` branch can only be reached in JS after
`off`/`clear` (where the closure would throw on `undefined`); it is
modelled as a no-op and no theorem below depends on it. -/
def EventBus.unsubscribe (bus : EventBus) (e : String) (cb : Callback) :
    EventBus :=
  match assocGet bus.events e with
  | none => bus
  | some cbs => { events := assocSet bus.events e (cbs.erase cb) }

/-- `emit(eventName, data)`: the ordered list of callback invocations the
`forEach` performs, each pairing a subscribed callback with the payload.
The method only reads `this.events`, so the bus state is unchanged. -/
def EventBus.emit (bus : EventBus) (e : String) (d : EventData) :
    List (Callback × EventData) :=
  match assocGet bus.events e with
  | none => []
  | some cbs => cbs.map (fun cb => (cb, d))

/-- One guarded invocation inside `emit`: `try { callback(data) } catch
(error) { console.error(...) }`. `throwsOn` says which invocations throw;
the catch logs and swallows, so the guarded result is always ok. -/
def runGuarded (throwsOn : Callback → EventData → Bool) (cb : Callback)
    (d : EventData) : Except String Unit :=
  match (if throwsOn cb d then Except.error "callback threw"
         else Except.ok ()) with
  | .ok u => .ok u
  | .error _ => .ok ()

/-- The `forEach` body of `emit` with exception propagation made explicit:
an invocation whose exception escaped its guard would abort the loop and
reject with it. -/
def runCallbacks (throwsOn : Callback → EventData → Bool) (d : EventData) :
    List Callback → Except String (List (Callback × EventData))
  | [] => .ok []
  | cb :: rest =>
    match runGuarded throwsOn cb d with
    | .error msg => .error msg
    | .ok _ =>
      match runCallbacks throwsOn d rest with
      | .error msg => .error msg
      | .ok invs => .ok ((cb, d) :: invs)

/-- `emit` with throwing callbacks made explicit. -/
def EventBus.emitRun (bus : EventBus)
    (throwsOn : Callback → EventData → Bool) (e : String) (d : EventData) :
    Except String (List (Callback × EventData)) :=
  match assocGet bus.events e with
  | none => .ok []
  | some cbs => runCallbacks throwsOn d cbs

/- ### C7: on / unsubscribe / emit bookkeeping -/

/-- C7 fails as stated: subscribing the same callback twice and invoking
one unsubscribe function removes only the first occurrence, so a
subsequent `emit` still invokes that callback. -/
theorem unsubscribe_still_invokes_duplicate :
    ((((EventBus.empty.on "payment:completed" 7).on "payment:completed" 7
        ).unsubscribe "payment:completed" 7).emit "payment:completed" 0)
      = [(7, 0)] := by
  decide

/-- C7 amended: `on` appends the callback to the event's list; the
unsubscribe function removes the first occurrence of that callback, so
when the callback was subscribed once a subsequent `emit` no longer
invokes it and still invokes the remaining callbacks, in subscription
order, with the payload; and `emit` on an event with no subscribers
invokes nothing (and, reading only `this.events`, changes no state). -/
theorem eventBus_on_unsubscribe_emit (bus : EventBus) (e : String)
    (cb : Callback) (d : EventData) :
    ((bus.on e cb).subscribers e = bus.subscribers e ++ [cb])
    ∧ ((bus.unsubscribe e cb).subscribers e = (bus.subscribers e).erase cb)
    ∧ ((bus.unsubscribe e cb).emit e d
        = ((bus.subscribers e).erase cb).map (fun c => (c, d)))
    ∧ (bus.subscribers e = [] → bus.emit e d = []) := by
  refine ⟨?_, ?_, ?_, ?_⟩
  · cases hm : assocGet bus.events e with
    | none =>
      unfold EventBus.on EventBus.subscribers
      rw [hm]
      simp [assocGet_assocSet_self, hm]
    | some cbs =>
      unfold EventBus.on EventBus.subscribers
      rw [hm]
      simp [assocGet_assocSet_self, hm]
  · cases hm : assocGet bus.events e with
    | none =>
      unfold EventBus.unsubscribe EventBus.subscribers
      rw [hm]
      simp [hm]
    | some cbs =>
      unfold EventBus.unsubscribe EventBus.subscribers
      rw [hm]
      simp [assocGet_assocSet_self, hm]
  · cases hm : assocGet bus.events e with
    | none =>
      unfold EventBus.unsubscribe EventBus.emit EventBus.subscribers
      rw [hm]
      simp [hm]
    | some cbs =>
      unfold EventBus.unsubscribe EventBus.emit EventBus.subscribers
      rw [hm]
      simp [assocGet_assocSet_self, hm]
  · intro hs
    unfold EventBus.subscribers at hs
    unfold EventBus.emit
    cases hm : assocGet bus.events e with
    | none => rfl
    | some cbs =>
      rw [hm] at hs
      simp at hs
      simp [hs]

/-- Witness for `eventBus_on_unsubscribe_emit`: emitting on a bus with no
subscribers for the event invokes nothing. -/
theorem eventBus_on_unsubscribe_emit_witness :
    EventBus.empty.emit "user:login" 3 = [] :=
  (eventBus_on_unsubscribe_emit EventBus.empty "user:login" 7 3).2.2.2 rfl

/- ### C9: emit isolates subscriber failures -/

theorem runGuarded_ok (throwsOn : Callback → EventData → Bool)
    (cb : Callback) (d : EventData) : runGuarded throwsOn cb d = .ok () := by
  unfold runGuarded
  by_cases h : throwsOn cb d
  · simp [h]
  · simp [h]

theorem runCallbacks_ok (throwsOn : Callback → EventData → Bool)
    (d : EventData) :
    ∀ cbs : List Callback,
      runCallbacks throwsOn d cbs = .ok (cbs.map (fun cb => (cb, d))) := by
  intro cbs
  induction cbs with
  | nil => rfl
  | cons cb rest ih =>
    unfold runCallbacks
    rw [runGuarded_ok, ih]
    simp

/-- C9: `emit` never propagates an exception and isolates subscriber
failures: whatever callbacks throw, every subscribed callback is invoked
with the payload, so `emitRun` always completes with exactly the
invocation list of `emit`. -/
theorem emitRun_never_throws (bus : EventBus)
    (throwsOn : Callback → EventData → Bool) (e : String) (d : EventData) :
    bus.emitRun throwsOn e d = .ok (bus.emit e d) := by
  unfold EventBus.emitRun EventBus.emit
  cases assocGet bus.events e with
  | none => rfl
  | some cbs => exact runCallbacks_ok throwsOn d cbs

end MFEToolkit
